import Mathlib

/-!
Verification of the customer-email processor (`src/main.py`).

The Python source is shallowly embedded: strings are lists of characters
(`Str`), spreadsheet cells are `Option Str` (`none` models a pandas/openpyxl
`NaN`/missing value, `some s` models a value whose `str()` is `s`), numbers
parsed by `float()` are modelled as rationals, interactive choices and
external I/O results (pandas engine attempts, openpyxl loads, file-system
facts) are passed in as explicit environment records.  Each definition
mirrors one Python function of the source.
-/

/-- Python strings are modelled as lists of characters. -/
abbrev Str := List Char

/-- Embed a Lean string literal into the `Str` model. -/
def str (s : String) : Str := s.data

/-- Cells of a spreadsheet row: `none` is a pandas `NaN` / missing value,
`some s` is a value whose Python `str()` rendering is `s`. -/
abbrev Cell := Option Str

/-- Python `str(value)` on a cell: `str(nan) = "nan"`. -/
def pyStr : Cell → Str
  | none => str "nan"
  | some s => s

/-- Python `pd.isna` on a cell. -/
def pyIsNa : Cell → Bool
  | none => true
  | some _ => false

/-- Python truthiness of a cell value: `NaN` (a float) is truthy,
a string is truthy iff non-empty. -/
def pyTruthy : Cell → Bool
  | none => true
  | some s => s ≠ []

/-- Python `str.strip()`: remove leading and trailing whitespace. -/
def pyStrip (s : Str) : Str :=
  ((s.dropWhile Char.isWhitespace).reverse.dropWhile Char.isWhitespace).reverse

/-- Python `str.lower()` (ASCII model). -/
def pyLower (s : Str) : Str := s.map Char.toLower

/-- Substring containment: `needle in hay` for Python strings. -/
def containsSub (needle hay : Str) : Bool :=
  hay.tails.any (fun t => needle.isPrefixOf t)

/-- `", ".join(parts)` and friends. -/
def pyJoin (sep : Str) : List Str → Str
  | [] => []
  | [t] => t
  | t :: ts => t ++ sep ++ pyJoin sep ts

/-! ## Workbook Locator: `_ensure_local_copy` (src/main.py lines 370-401)

The body of the `try:` block either returns a path, raises, or falls
through to the final `return str(path)`.  The enclosing `except Exception`
swallows every error raised inside the body (printing a warning) and the
function then returns the original path. -/

/-- Errors the `try` body of `_ensure_local_copy` can raise. -/
inductive LocErr where
  | emptyFile    -- `raise ValueError("File is empty (0 bytes)")`
  | copyFailed   -- `copy2` raised
  deriving DecidableEq, Repr

/-- Outcome of the `try` body of `_ensure_local_copy`. -/
inductive LocOutcome where
  | ret (p : Str)        -- an explicit `return` inside the `try`
  | fallthrough          -- body completed; control reaches `return str(path)`
  | raised (e : LocErr)  -- an exception propagated out of the body
  deriving DecidableEq, Repr

/-- File-system facts `_ensure_local_copy` consults. -/
structure LocEnv where
  pathExists : Bool   -- `p.exists()`
  size : Nat          -- `p.stat().st_size`
  copyOk : Bool       -- whether `copy2` succeeds
  tmpPath : Str       -- the temporary path `copy2` would produce
  deriving Repr

/-- Cloud-storage markers checked by `_ensure_local_copy`. -/
def cloudIndicators : List Str :=
  [str "onedrive", str "cloudstorage", str "icloud", str "dropbox",
   str "google drive"]

/-- `is_cloud`: any indicator occurs in the lower-cased path string. -/
def isCloudPath (path : Str) : Bool :=
  cloudIndicators.any (fun ind => containsSub ind (pyLower path))

/-- The `try` body of `_ensure_local_copy` (path resolution is modelled as
the identity). -/
def ensureLocalCopyBody (path : Str) (env : LocEnv) : LocOutcome :=
  if ¬env.pathExists then .ret path
  else if env.size = 0 then .raised .emptyFile
  else if isCloudPath path ∨ env.size < 1024 then
    if env.copyOk then .ret env.tmpPath else .raised .copyFailed
  else .fallthrough

/-- `_ensure_local_copy`: the blanket `except Exception` turns every raised
error into a printed warning, after which the original path is returned. -/
def ensureLocalCopy (path : Str) (env : LocEnv) : Str :=
  match ensureLocalCopyBody path env with
  | .ret p => p
  | .fallthrough => path
  | .raised _ => path

/-- C2: for a user-supplied path naming an existing 0-byte file, the `try`
body of `_ensure_local_copy` does raise the empty-file error, but the
function's own `except Exception` swallows it, and the function returns the
original path — processing continues; the run is not aborted. -/
theorem c2_empty_file_swallowed :
    ensureLocalCopyBody (str "/tmp/ledger.xlsx")
        ⟨true, 0, true, str "/tmp/copy.xlsx"⟩ = .raised .emptyFile ∧
    ensureLocalCopy (str "/tmp/ledger.xlsx")
        ⟨true, 0, true, str "/tmp/copy.xlsx"⟩ = str "/tmp/ledger.xlsx" := by
  constructor <;> rfl

/-! ## Sheet Resolver: `_list_sheet_names_robust` (src/main.py lines 182-298)

Each strategy attempt is an external call whose outcome (a raised exception
or a returned sheet list) is supplied by an environment record.  A strategy
attempt is accepted exactly when it returns a non-empty sheet list. -/

/-- Pandas engines tried by strategy 1, in source order
(`engines_to_try = [None, 'openpyxl', 'xlrd']`, plus `'pyxlsb'`). -/
inductive PandasEngine where
  | auto | openpyxl | xlrd | pyxlsb
  deriving DecidableEq, Repr

/-- The three `load_workbook` parameter combinations tried, in source order
(`read_only`/`data_only` pairs). -/
inductive OxlParams where
  | roT_doT | roF_doT | roT_doF
  deriving DecidableEq, Repr

/-- The list `params_to_try`, in source order. -/
def oxlParamsList : List OxlParams := [.roT_doT, .roF_doT, .roT_doF]

/-- Outcomes of the external calls made by `_list_sheet_names_robust`:
each attempt either raises (modelled `.error ()`) or returns a sheet list. -/
structure SheetEnv where
  fileExists : Bool
  suffix : Str                                        -- `file_path.suffix`
  pyxlsbAvailable : Bool                              -- `import pyxlsb` works
  pandasAttempt : PandasEngine → Except Unit (List Str)
  oxlAttempt : OxlParams → Except Unit (List Str)
  isWindows : Bool                                    -- `os.name == 'nt'`
  win32Attempt : Except Unit (List Str)
  zipAttempt : Except Unit (List Str)                 -- manual zip parsing

/-- Errors `_list_sheet_names_robust` raises. -/
inductive SheetErr where
  | notFound     -- `FileNotFoundError`
  | unreadable   -- final `RuntimeError` with the diagnostic hint list
  deriving DecidableEq, Repr

/-- First attempt in a list that returned a non-empty sheet list; failed
attempts and empty lists are skipped (`continue`). -/
def tryList : List (Except Unit (List Str)) → Option (List Str)
  | [] => none
  | .ok s :: rest => if s ≠ [] then some s else tryList rest
  | .error _ :: rest => tryList rest

/-- `engines_to_try` for a given file. -/
def pandasEngines (env : SheetEnv) : List PandasEngine :=
  [.auto, .openpyxl, .xlrd] ++
    (if pyLower env.suffix = str ".xlsb" ∧ env.pyxlsbAvailable
     then [.pyxlsb] else [])

/-- Strategy 1: pandas `ExcelFile` over the engine cascade. -/
def sheetStage1 (env : SheetEnv) : List (Except Unit (List Str)) :=
  (pandasEngines env).map env.pandasAttempt

/-- Strategy 2: direct `load_workbook` over the parameter combinations.
Every exception is swallowed by the inner `except` (`continue`). -/
def sheetStage2 (env : SheetEnv) : List (Except Unit (List Str)) :=
  oxlParamsList.map env.oxlAttempt

/-- Strategy 3: win32com, only on Windows; failure is caught and skipped,
and an empty sheet list also falls through. -/
def sheetStage3 (env : SheetEnv) : List (Except Unit (List Str)) :=
  if env.isWindows then [env.win32Attempt] else []

/-- Strategy 4: manual zip parsing of `xl/workbook.xml`, only for
`.xlsx`/`.xlsm` files. -/
def sheetStage4 (env : SheetEnv) : List (Except Unit (List Str)) :=
  if pyLower env.suffix = str ".xlsx" ∨ pyLower env.suffix = str ".xlsm"
  then [env.zipAttempt] else []

/-- `_list_sheet_names_robust`. -/
def listSheetNamesRobust (env : SheetEnv) : Except SheetErr (List Str) :=
  if ¬env.fileExists then .error .notFound
  else
    match tryList (sheetStage1 env) with
    | some s => .ok s
    | none =>
      match tryList (sheetStage2 env) with
      | some s => .ok s
      | none =>
        match tryList (sheetStage3 env) with
        | some s => .ok s
        | none =>
          match tryList (sheetStage4 env) with
          | some s => .ok s
          | none => .error .unreadable

/-- The full attempt sequence in the order the code tries it: pandas engine
`auto`, then `openpyxl` (newer XML-zip format), then `xlrd` (legacy binary
format), then optionally `pyxlsb`, then direct openpyxl loads, then
win32com, then manual zip parsing. -/
def codeAttemptSeq (env : SheetEnv) : List (Except Unit (List Str)) :=
  sheetStage1 env ++ sheetStage2 env ++ sheetStage3 env ++ sheetStage4 env

/-- Modelled from the spec (§4.2 contract, for comparison only): the same
resolver but with the spec's claimed strategy priority, where the explicit
legacy-binary engine (`xlrd`, spec strategy 2) is tried before the explicit
newer-XML-zip engine (`openpyxl`, spec strategy 3). -/
def specPandasEngines (env : SheetEnv) : List PandasEngine :=
  [.auto, .xlrd, .openpyxl] ++
    (if pyLower env.suffix = str ".xlsb" ∧ env.pyxlsbAvailable
     then [.pyxlsb] else [])

/-- Modelled from the spec: first non-empty result over the spec's claimed
attempt order. -/
def specSheetResolver (env : SheetEnv) : Except SheetErr (List Str) :=
  if ¬env.fileExists then .error .notFound
  else
    match tryList ((specPandasEngines env).map env.pandasAttempt ++
        sheetStage2 env ++ sheetStage3 env ++ sheetStage4 env) with
    | some s => .ok s
    | none => .error .unreadable

lemma tryList_append (a b : List (Except Unit (List Str))) :
    tryList (a ++ b) = (tryList a).orElse (fun _ => tryList b) := by
  induction a with
  | nil => rfl
  | cons x rest ih =>
    cases x with
    | ok s =>
      by_cases h : s = []
      · simp [tryList, h, ih]
      · simp [tryList, h]
    | error e => simp [tryList, ih]

/-- A concrete environment on which the code's engine order and the spec's
claimed engine order give different answers: pandas auto-detect raises,
the `openpyxl` engine returns `["B"]`, the `xlrd` engine returns `["A"]`. -/
def sheetEnvCx : SheetEnv where
  fileExists := true
  suffix := str ".xlsx"
  pyxlsbAvailable := false
  pandasAttempt := fun e =>
    match e with
    | .auto => .error ()
    | .openpyxl => .ok [str "B"]
    | .xlrd => .ok [str "A"]
    | .pyxlsb => .error ()
  oxlAttempt := fun _ => .error ()
  isWindows := false
  win32Attempt := .error ()
  zipAttempt := .error ()

/-- C5 counterexample: the claim says the legacy-binary engine (spec
strategy 2, `xlrd`) is attempted before the newer-XML-zip engine (spec
strategy 3, `openpyxl`).  On `sheetEnvCx` the resolver returns `["B"]`
(the `openpyxl` result), while the spec's claimed priority would return
`["A"]` (the `xlrd` result): the code tries `openpyxl` first. -/
theorem c5_counterexample :
    listSheetNamesRobust sheetEnvCx = .ok [str "B"] ∧
    specSheetResolver sheetEnvCx = .ok [str "A"] ∧
    listSheetNamesRobust sheetEnvCx ≠ specSheetResolver sheetEnvCx := by
  refine ⟨rfl, rfl, ?_⟩
  intro h
  have h0 : (Except.ok [str "B"] : Except SheetErr (List Str)) =
      Except.ok [str "A"] := h
  have h1 : ([str "B"] : List Str) = [str "A"] := by injection h0
  have h2 : str "B" = str "A" := by injection h1
  exact absurd h2 (by decide)

/-- C5 amended: for every located (existing) file the resolver does try the
strategies in a fixed priority and returns the first non-empty sheet list,
but within the pandas stage the engine order is auto-detect, then the
newer-XML-zip engine (`openpyxl`), then the legacy-binary engine (`xlrd`) —
the opposite of the claim's order for those two — followed by the optional
`pyxlsb` engine, the direct openpyxl loads, win32com and manual zip
parsing; it fails with the diagnostic error only when every attempt in the
sequence is exhausted. -/
theorem c5_fixed_priority (env : SheetEnv) (h : env.fileExists = true) :
    listSheetNamesRobust env =
      match tryList (codeAttemptSeq env) with
      | some s => .ok s
      | none => .error .unreadable := by
  unfold listSheetNamesRobust codeAttemptSeq
  rw [tryList_append, tryList_append, tryList_append]
  simp only [h]
  cases tryList (sheetStage1 env) <;>
    cases tryList (sheetStage2 env) <;>
      cases tryList (sheetStage3 env) <;>
        cases tryList (sheetStage4 env) <;> simp [Option.orElse]

/-- C5 witness: the amended theorem applied to the concrete environment
`sheetEnvCx` (which has an existing file). -/
theorem c5_witness :
    sheetEnvCx.fileExists = true ∧
    listSheetNamesRobust sheetEnvCx =
      match tryList (codeAttemptSeq sheetEnvCx) with
      | some s => .ok s
      | none => .error .unreadable :=
  ⟨rfl, c5_fixed_priority sheetEnvCx rfl⟩

/-! ## Table Reader: `_read_sheet_df_robust` (src/main.py lines 300-368)

Strategy 1 tries `pd.read_excel` over the engine cascade, accepting a frame
that is non-empty or has at least one column.  Strategy 2 loads the
workbook with openpyxl for each parameter combination, skipping every
failure with the inner `except` (`continue`).  When the parameter loop is
exhausted, control falls off the end of the function: the outer
`except ... raise` can only fire for an exception escaping the inner
`try`, which none can, so the function returns Python `None`. -/

/-- Python decimal rendering of a natural number (`f"{n}"`, `str(n)`). -/
def natRepr (n : Nat) : Str :=
  if n = 0 then [Nat.digitChar 0]
  else ((Nat.digits 10 n).map Nat.digitChar).reverse

/-- A pandas DataFrame: column labels and rows of cells. -/
structure DF where
  columns : List Str
  rows : List (List Cell)
  deriving DecidableEq, Repr

/-- `df.empty`: true when either axis has length 0. -/
def DF.empty (df : DF) : Bool := df.rows = [] ∨ df.columns = []

/-- An openpyxl workbook as `iter_rows(values_only=True)` sees it:
sheet names paired with their raw rows. -/
structure Workbook where
  sheets : List (Str × List (List Cell))
  deriving Repr

/-- Outcomes of the external calls made by `_read_sheet_df_robust`. -/
structure ReadEnv where
  suffix : Str
  pyxlsbAvailable : Bool
  pandasRead : PandasEngine → Except Unit DF     -- `pd.read_excel` attempts
  oxlLoad : OxlParams → Except Unit Workbook     -- `load_workbook` attempts

/-- What `_read_sheet_df_robust` can produce: a DataFrame, or Python
`None` by falling off the end of the function body. -/
inductive ReadResult where
  | table (df : DF)
  | pyNone
  deriving Repr

/-- Header synthesis of the manual fallback (src/main.py line 358):
`str(h) if h is not None else f"Column_{n}"` for the cell at 1-based
position `n`.  Only a `None` cell is replaced. -/
def headerLabel (n : Nat) : Cell → Str
  | none => str "Column_" ++ natRepr n
  | some s => s

/-- The header comprehension, carrying the 0-based position `i`. -/
def synthHeadersFrom (i : Nat) : List Cell → List Str
  | [] => []
  | c :: cs => headerLabel (i + 1) c :: synthHeadersFrom (i + 1) cs

/-- Headers synthesised from the first raw row. -/
def synthHeaders : List Cell → List Str := synthHeadersFrom 0

/-- One openpyxl attempt of strategy 2 for a given parameter combination:
load failure or a missing sheet means `continue` (`none`); otherwise the
rows are turned into a DataFrame. -/
def manualAttempt (env : ReadEnv) (sheetName : Str) (p : OxlParams) :
    Option DF :=
  match env.oxlLoad p with
  | .error _ => none
  | .ok wb =>
    match wb.sheets.lookup sheetName with
    | none => none
    | some data =>
      match data with
      | [] => some ⟨[], []⟩                    -- `return pd.DataFrame()`
      | first :: rest => some ⟨synthHeaders first, rest⟩

/-- First pandas engine whose read is accepted
(`not df.empty or len(df.columns) > 0`). -/
def pandasStage (env : ReadEnv) : List PandasEngine → Option DF
  | [] => none
  | e :: es =>
    match env.pandasRead e with
    | .ok df => if ¬df.empty ∨ df.columns ≠ [] then some df
                else pandasStage env es
    | .error _ => pandasStage env es

/-- Engines tried by `_read_sheet_df_robust` (same cascade as the sheet
resolver). -/
def readEngines (env : ReadEnv) : List PandasEngine :=
  [.auto, .openpyxl, .xlrd] ++
    (if pyLower env.suffix = str ".xlsb" ∧ env.pyxlsbAvailable
     then [.pyxlsb] else [])

/-- `_read_sheet_df_robust`. -/
def readSheetDfRobust (env : ReadEnv) (sheetName : Str) : ReadResult :=
  match pandasStage env (readEngines env) with
  | some df => .table df
  | none =>
    match oxlParamsList.findSome? (manualAttempt env sheetName) with
    | some df => .table df
    | none => .pyNone

/-- An environment in which every pandas engine raises and every
`load_workbook` call raises. -/
def readEnvAllFail : ReadEnv where
  suffix := str ".xlsx"
  pyxlsbAvailable := false
  pandasRead := fun _ => .error ()
  oxlLoad := fun _ => .error ()

/-- C3: when every pandas engine attempt fails and every manual openpyxl
parameter combination also fails, `_read_sheet_df_robust` neither returns a
table nor re-raises: control falls off the end of the function and Python
`None` is returned (the `raise` in the outer `except` clause is
unreachable, since the inner `except` swallows every per-parameter
exception).  The claim/spec statement that the underlying error is
re-raised is contradicted. -/
theorem c3_exhausted_returns_none :
    readSheetDfRobust readEnvAllFail (str "Data") = ReadResult.pyNone := by
  rfl

/-- An environment in which every pandas engine raises but the first
manual openpyxl load succeeds, returning the given sheet data. -/
def readEnvManual (sheetName : Str) (data : List (List Cell)) : ReadEnv where
  suffix := str ".xlsx"
  pyxlsbAvailable := false
  pandasRead := fun _ => .error ()
  oxlLoad := fun p =>
    match p with
    | .roT_doT => .ok ⟨[(sheetName, data)]⟩
    | _ => .error ()

lemma synthHeadersFrom_get? (hs : List Cell) :
    ∀ (j i : Nat) (c : Cell), hs[i]? = some c →
      (synthHeadersFrom j hs)[i]? = some (headerLabel (j + i + 1) c) := by
  induction hs with
  | nil => intro j i c h; simp at h
  | cons x xs ih =>
    intro j i c h
    cases i with
    | zero =>
      simp at h
      subst h
      simp [synthHeadersFrom]
    | succ n =>
      simp only [List.getElem?_cons_succ] at h
      have := ih (j + 1) n c h
      have harith : j + 1 + n + 1 = j + (n + 1) + 1 := by omega
      simpa [synthHeadersFrom, harith] using this

/-- C4 counterexample: a blank (empty-string) header cell is NOT replaced
by a synthesized label: `synthHeaders [""]` is `[""]`, not `["Column_1"]`.
Only a missing (`None`) cell is replaced. -/
theorem c4_counterexample :
    synthHeaders [some []] = [[]] ∧
    synthHeaders [some []] ≠ [str "Column_" ++ natRepr 1] := by
  constructor
  · rfl
  · intro h
    have h1 : ([] : Str) = str "Column_" ++ natRepr 1 := by
      have h0 : ([[]] : List Str) = [str "Column_" ++ natRepr 1] := h
      injection h0
    have h2 : (str "Column_" ++ natRepr 1).length = 0 := by
      rw [← h1]; rfl
    simp [str, natRepr] at h2

/-- C4 amended: in the manual openpyxl fallback, a header cell is replaced
by the synthesized label `"Column_N"` (`N` the cell's 1-based position)
exactly when the cell is missing (`None`); a present cell — blank or not —
is kept as its `str()` rendering.  The rows after the header row become the
table's data rows. -/
theorem c4_header_synthesis (d : List (List Cell)) (hd : d ≠ [])
    (first : List Cell) (hfirst : d.head? = some first)
    (i : Nat) (c : Cell) (hc : first[i]? = some c) :
    readSheetDfRobust (readEnvManual (str "S") d) (str "S") =
      .table ⟨synthHeaders first, d.tail⟩ ∧
    (synthHeaders first)[i]? = some (headerLabel (i + 1) c) := by
  constructor
  · cases d with
    | nil => exact absurd rfl hd
    | cons f rest =>
      have hf : f = first := by simpa using hfirst
      subst hf
      rfl
  · have := synthHeadersFrom_get? first 0 i c hc
    simpa using this

/-- C4 witness: the amended theorem applied to a concrete sheet whose
header row is `["Name", None]` and which has one data row. -/
theorem c4_witness :
    ([[some (str "Name"), none], [some (str "Acme"), some (str "10")]]
        ≠ ([] : List (List Cell))) ∧
    ([some (str "Name"), none] : List Cell)[1]? = some none ∧
    readSheetDfRobust
        (readEnvManual (str "S")
          [[some (str "Name"), none], [some (str "Acme"), some (str "10")]])
        (str "S") =
      .table ⟨synthHeaders [some (str "Name"), none],
              [[some (str "Acme"), some (str "10")]]⟩ ∧
    (synthHeaders [some (str "Name"), none])[1]? =
      some (headerLabel 2 none) := by
  have h := c4_header_synthesis
    [[some (str "Name"), none], [some (str "Acme"), some (str "10")]]
    (by simp) [some (str "Name"), none] rfl 1 none rfl
  exact ⟨by simp, rfl, h.1, h.2⟩

/-! ## Number parsing: Python `float(...)` on cleaned cell text

`_calculate_total_amount` evaluates
`float(str(value).replace('$', '').replace(',', ''))`.  `float` is
modelled as an exact rational parser for the decimal forms
`[ws] [sign] digits [. digits] [e/E [sign] digits] [ws]` (also `.digits`
and `digits.`); the `inf`/`nan` literals and underscore digit separators
accepted by CPython are outside the model's scope. -/

/-- Numeric value of a digit run (most-significant first). -/
def digitsVal (ds : Str) : Nat :=
  ds.foldl (fun a c => 10 * a + (c.toNat - 48)) 0

/-- Mantissa without sign: `digits`, `digits.`, `digits.digits`, `.digits`. -/
def parseMantissa (s : Str) : Option ℚ :=
  let ip := s.takeWhile Char.isDigit
  match s.dropWhile Char.isDigit with
  | [] => if ip = [] then none else some (digitsVal ip : ℚ)
  | '.' :: fp =>
    if fp.all Char.isDigit ∧ ¬(ip = [] ∧ fp = []) then
      some ((digitsVal ip : ℚ) + (digitsVal fp : ℚ) / (10 : ℚ) ^ fp.length)
    else none
  | _ => none

/-- Strip one optional leading sign, returning the sign factor. -/
def parseSign : Str → ℚ × Str
  | '+' :: rest => (1, rest)
  | '-' :: rest => (-1, rest)
  | s => (1, s)

/-- Signed integer (for the exponent part). -/
def parseSignedInt (s : Str) : Option ℤ :=
  match s with
  | '+' :: rest => if rest ≠ [] ∧ rest.all Char.isDigit
                   then some (digitsVal rest : ℤ) else none
  | '-' :: rest => if rest ≠ [] ∧ rest.all Char.isDigit
                   then some (-(digitsVal rest : ℤ)) else none
  | _ => if s ≠ [] ∧ s.all Char.isDigit then some (digitsVal s : ℤ) else none

/-- Split a string at the first `e`/`E`, if any. -/
def splitExp : Str → Str × Option Str
  | [] => ([], none)
  | c :: cs =>
    if c = 'e' ∨ c = 'E' then ([], some cs)
    else
      let (m, e) := splitExp cs
      (c :: m, e)

/-- `float(s)`: `none` models a raised `ValueError`. -/
def pyFloat (s : Str) : Option ℚ :=
  let t := pyStrip s
  match splitExp t with
  | (m, none) =>
    let (sg, m') := parseSign m
    (parseMantissa m').map (fun q => sg * q)
  | (m, some e) =>
    let (sg, m') := parseSign m
    match parseMantissa m', parseSignedInt e with
    | some q, some ex => some (sg * q * (10 : ℚ) ^ ex)
    | _, _ => none

/-! ## Document Renderer: `_calculate_total_amount`
(src/main.py lines 674-689)

The inner loop scans the row's columns in iteration order; on a column
whose lowered name contains one of the amount hints it evaluates the
candidate inside a `try:`.  The `break` sits after the addition inside the
`try`, so a candidate that fails to parse is caught by
`except (ValueError, TypeError): pass` and the scan CONTINUES with the
remaining columns; only a successfully added candidate stops the scan.
A `NaN` candidate is coerced to `0` and does stop the scan. -/

/-- A row of customer data: ordered column-name/value pairs. -/
abbrev PyRow := List (Str × Cell)

/-- Amount hints of `_calculate_total_amount`. -/
def amountKeywords : List Str :=
  [str "balance", str "amount", str "total", str "due"]

/-- `any(keyword in col.lower() for keyword in [...])`. -/
def colMatchesAmount (col : Str) : Bool :=
  amountKeywords.any (fun k => containsSub k (pyLower col))

/-- The guarded candidate: `value = 0` when `pd.isna(value)`, then
`float(str(value).replace('$', '').replace(',', ''))`; `none` models the
caught `ValueError`/`TypeError`. -/
def amountCandidate : Cell → Option ℚ
  | none => some 0
  | some s => pyFloat (s.filter (fun c => !(c = '$' ∨ c = ',')))

/-- The scan of one row's columns, accumulating into `total`. -/
def calcRow (total : ℚ) : PyRow → ℚ
  | [] => total
  | (col, v) :: rest =>
    if colMatchesAmount col then
      match amountCandidate v with
      | some q => total + q       -- `total += ...` then `break`
      | none => calcRow total rest -- caught parse error: scan continues
    else calcRow total rest

/-- `_calculate_total_amount`. -/
def calculateTotalAmount (invoices : List PyRow) : ℚ :=
  invoices.foldl calcRow 0

/-- Per-row contribution as the code computes it: the first
amount-hinted column whose candidate parses (a `NaN` candidate counts as a
parsed `0`); `0` when no such column exists. -/
def rowContribution (r : PyRow) : ℚ :=
  ((r.filterMap fun p =>
      if colMatchesAmount p.1 then amountCandidate p.2 else none).headD 0)

/-- Modelled from the spec's words (C1 as stated, for comparison only):
the row contributes the candidate of the FIRST amount-hinted column in
iteration order, the scan stopping there; an unparsable candidate
contributes nothing. -/
def claimRowContribution (r : PyRow) : ℚ :=
  match r.find? (fun p => colMatchesAmount p.1) with
  | none => 0
  | some p => (amountCandidate p.2).getD 0

/-- Modelled from the spec's words: total under the claim's per-row rule. -/
def claimTotalAmount (invoices : List PyRow) : ℚ :=
  (invoices.map claimRowContribution).sum

lemma calcRow_eq (r : PyRow) : ∀ total, calcRow total r =
    total + rowContribution r := by
  induction r with
  | nil => intro total; simp [calcRow, rowContribution]
  | cons p rest ih =>
    intro total
    obtain ⟨col, v⟩ := p
    by_cases hm : colMatchesAmount col
    · cases hv : amountCandidate v with
      | none => simp [calcRow, hm, hv, ih, rowContribution]
      | some q => simp [calcRow, hm, hv, rowContribution]
    · simp [calcRow, hm, ih, rowContribution]

/-- C1 amended: the total is the sum over rows of a per-row contribution,
where each row contributes the value of the first column (in iteration
order) whose name contains an amount hint AND whose '$',','-stripped value
parses as a decimal number (a `NaN` candidate parses as an explicit 0);
a matching column whose value is unparsable or empty is skipped and the
scan CONTINUES with later columns, because the `break` sits inside the
`try` after the addition.  Rows with no parsable matching column
contribute nothing. -/
theorem c1_total_is_sum_of_rows (invoices : List PyRow) :
    calculateTotalAmount invoices =
      (invoices.map rowContribution).sum := by
  suffices h : ∀ t, invoices.foldl calcRow t =
      t + (invoices.map rowContribution).sum by
    simpa [calculateTotalAmount] using h 0
  induction invoices with
  | nil => intro t; simp
  | cons r rest ih =>
    intro t
    simp only [List.foldl_cons, List.map_cons, List.sum_cons]
    rw [calcRow_eq, ih]
    ring

/-- C1 counterexample: on the row `{"Amount": "abc", "Total": "20"}` the
code contributes `20` — the unparsable first matching column "Amount" is
skipped and the scan continues to "Total" — while the claim as stated
(first matching column only, scan stops there, unparsable contributes
nothing) yields `0`. -/
theorem c1_counterexample :
    calculateTotalAmount
        [[(str "Amount", some (str "abc")), (str "Total", some (str "20"))]]
      = 20 ∧
    claimTotalAmount
        [[(str "Amount", some (str "abc")), (str "Total", some (str "20"))]]
      = 0 := by
  have hA : colMatchesAmount (str "Amount") = true := by decide
  have hT : colMatchesAmount (str "Total") = true := by decide
  have habc : amountCandidate (some (str "abc")) = none := rfl
  have h20 : amountCandidate (some (str "20")) =
      some ((1 : ℚ) * ((20 : ℕ) : ℚ)) := rfl
  constructor
  · simp only [calculateTotalAmount, List.foldl_cons, List.foldl_nil,
      calcRow, hA, hT, habc, h20, if_true]
    norm_num
  · simp only [claimTotalAmount, claimRowContribution, List.map_cons,
      List.map_nil, List.find?, hA, habc, List.sum_cons, List.sum_nil,
      Option.getD_none]
    norm_num

/-! ## Document Renderer: `_build_invoice_string`
(src/main.py lines 595-622) -/

/-- Invoice hints: `['invoice', 'inv', '#']`. -/
def invoiceKeywords : List Str := [str "invoice", str "inv", str "#"]

/-- `any(keyword in col.lower() for keyword in ['invoice', 'inv', '#'])`. -/
def colMatchesInvoice (col : Str) : Bool :=
  invoiceKeywords.any (fun k => containsSub k (pyLower col))

/-- First loop: candidate from the first invoice-hinted column, if any. -/
def invHintedCell (r : PyRow) : Option Cell :=
  match r.find? (fun p => colMatchesInvoice p.1) with
  | some p => some p.2
  | none => none

/-- Second loop (`if not inv_num`): first column whose value is truthy and
whose `str()` contains a digit. -/
def invDigitCell (r : PyRow) : Option Cell :=
  match r.find? (fun p =>
      pyTruthy p.2 ∧ (pyStr p.2).any Char.isDigit) with
  | some p => some p.2
  | none => none

/-- `inv_num` after both loops.  `if not inv_num` fires when the first
loop found nothing OR its candidate is falsy (`None` is never stored by
the first loop's `invoice.get`, whose misses yield Python `None`, which is
falsy; a `NaN` float is truthy). -/
def invNum (r : PyRow) : Option Cell :=
  match invHintedCell r with
  | some c => if pyTruthy c then some c else invDigitCell r
  | none => invDigitCell r

/-- The per-row extraction including the final guard
`if inv_num and not pd.isna(inv_num) and str(inv_num).strip()`. -/
def rowInvoiceId (r : PyRow) : Option Str :=
  match invNum r with
  | none => none
  | some c =>
    if pyTruthy c ∧ ¬pyIsNa c ∧ pyStrip (pyStr c) ≠ []
    then some (pyStrip (pyStr c)) else none

/-- The accumulated `invoice_list`. -/
def extractInvoiceIds (invoices : List PyRow) : List Str :=
  invoices.filterMap rowInvoiceId

/-- `_build_invoice_string`: build the list, then join. -/
def buildInvoiceString (invoices : List PyRow) : Str :=
  let l := extractInvoiceIds invoices
  if l.length = 0 then str "your invoices"
  else if l.length = 1 then l.headD []
  else pyJoin (str ", ") l.dropLast ++ str " and " ++ l.getLastD []

/-- Modelled from the spec's words (C6's join rule): zero ids give the
literal "your invoices", one id is returned unadorned, otherwise the ids
are joined with ", " and " and " before the final id. -/
def specInvoiceJoin : List Str → Str
  | [] => str "your invoices"
  | [x] => x
  | l => pyJoin (str ", ") l.dropLast ++ str " and " ++ l.getLastD []

/-- C6: for every list of rows, the invoice-list string built by the code
is exactly the claim's join of the extracted ids: "your invoices" when no
ids were extracted, the single id unadorned, and otherwise the ids joined
with ", " with " and " before the final id; the concrete examples
`["A-1","A-2"] ↦ "A-1 and A-2"` and
`["A-1","A-2","A-3"] ↦ "A-1, A-2 and A-3"` are checked on rows whose
"Invoice" column holds those ids. -/
theorem c6_invoice_join :
    (∀ invoices : List PyRow,
      buildInvoiceString invoices =
        specInvoiceJoin (extractInvoiceIds invoices)) ∧
    buildInvoiceString [] = str "your invoices" ∧
    buildInvoiceString [[(str "Invoice", some (str "A-1"))]] = str "A-1" ∧
    buildInvoiceString
        [[(str "Invoice", some (str "A-1"))],
         [(str "Invoice", some (str "A-2"))]] = str "A-1 and A-2" ∧
    buildInvoiceString
        [[(str "Invoice", some (str "A-1"))],
         [(str "Invoice", some (str "A-2"))],
         [(str "Invoice", some (str "A-3"))]] = str "A-1, A-2 and A-3" := by
  refine ⟨?_, by decide, by decide, by decide, by decide⟩
  intro invoices
  unfold buildInvoiceString
  match extractInvoiceIds invoices with
  | [] => rfl
  | [x] => rfl
  | x :: y :: rest => simp [specInvoiceJoin]

/-! ## Address helpers: `_parse_addresses`, `_format_addrs_for_mime`
(src/main.py lines 579-590) -/

/-- `addr_str.replace(';', ',')`: the pattern is a single character, so the
replacement is a character map. -/
def pyReplaceSemi (s : Str) : Str :=
  s.map (fun c => if c = ';' then ',' else c)

/-- Python `s.split(',')`. -/
def splitOnComma : Str → List Str
  | [] => [[]]
  | c :: cs =>
    if c = ',' then [] :: splitOnComma cs
    else
      match splitOnComma cs with
      | [] => [[c]]
      | p :: ps => (c :: p) :: ps

/-- `_parse_addresses`: guard on falsy input, replace `';'` by `','`,
split on `','`, strip each part, keep non-empty parts, keep parts
containing `'@'`. -/
def parseAddresses (s : Str) : List Str :=
  if s = [] then []
  else
    (((splitOnComma (pyReplaceSemi s)).map pyStrip).filter
        (fun p => p ≠ [])).filter (fun p => p.contains '@')

/-- `_format_addrs_for_mime`: `", ".join(addrs)`. -/
def formatAddrsForMime (addrs : List Str) : Str := pyJoin (str ", ") addrs

lemma map_id_of_mem {α : Type} (l : List α) (f : α → α)
    (h : ∀ a ∈ l, f a = a) : l.map f = l := by
  induction l with
  | nil => rfl
  | cons x xs ih =>
    simp only [List.map_cons]
    rw [h x (by simp), ih (fun a ha => h a (by simp [ha]))]

lemma pyReplaceSemi_of_no_semi {s : Str} (h : ∀ c ∈ s, c ≠ ';') :
    pyReplaceSemi s = s := by
  unfold pyReplaceSemi
  exact map_id_of_mem s _ (fun c hc => by simp [h c hc])

lemma pyReplaceSemi_append (a b : Str) :
    pyReplaceSemi (a ++ b) = pyReplaceSemi a ++ pyReplaceSemi b := by
  simp [pyReplaceSemi]

lemma pyReplaceSemi_pyJoin (sep : Str) (ts : List Str) :
    pyReplaceSemi (pyJoin sep ts) =
      pyJoin (pyReplaceSemi sep) (ts.map pyReplaceSemi) := by
  induction ts with
  | nil => rfl
  | cons t rest ih =>
    cases rest with
    | nil => rfl
    | cons u rest' =>
      simp only [pyJoin, List.map_cons, pyReplaceSemi_append]
      rw [← List.map_cons pyReplaceSemi u rest', ih]

lemma pyReplaceSemi_no_semi (s : Str) : ∀ c ∈ pyReplaceSemi s, c ≠ ';' := by
  intro c hc
  unfold pyReplaceSemi at hc
  obtain ⟨a, _, ha⟩ := List.mem_map.mp hc
  by_cases h : a = ';'
  · rw [if_pos h] at ha
    subst ha
    decide
  · rw [if_neg h] at ha
    subst ha
    exact h

lemma pyReplaceSemi_idem (s : Str) :
    pyReplaceSemi (pyReplaceSemi s) = pyReplaceSemi s :=
  pyReplaceSemi_of_no_semi (pyReplaceSemi_no_semi s)

lemma pyReplaceSemi_empty_iff (s : Str) : pyReplaceSemi s = [] ↔ s = [] := by
  constructor
  · intro h
    exact List.map_eq_nil_iff.mp h
  · intro h; subst h; rfl

/-- `_parse_addresses` is a function of the `';'→','` image of its input. -/
lemma parseAddresses_replace (s : Str) :
    parseAddresses s = parseAddresses (pyReplaceSemi s) := by
  by_cases h : s = []
  · subst h; rfl
  · have h2 : pyReplaceSemi s ≠ [] :=
      fun hh => h ((pyReplaceSemi_empty_iff s).mp hh)
    unfold parseAddresses
    rw [if_neg h, if_neg h2, pyReplaceSemi_idem]

/-- C7: address parsing is separator-insensitive (for tokens containing
neither separator, joining with "; " and with ", " parse identically), and
every token not containing '@' is dropped: each parsed address contains
'@'. -/
theorem c7_separator_insensitive :
    (∀ ts : List Str, (∀ t ∈ ts, ';' ∉ t ∧ ',' ∉ t) →
      parseAddresses (pyJoin (str "; ") ts) =
        parseAddresses (pyJoin (str ", ") ts)) ∧
    (∀ s : Str, ∀ a ∈ parseAddresses s, '@' ∈ a) := by
  constructor
  · intro ts h
    rw [parseAddresses_replace (pyJoin (str "; ") ts),
        parseAddresses_replace (pyJoin (str ", ") ts)]
    congr 1
    rw [pyReplaceSemi_pyJoin, pyReplaceSemi_pyJoin]
    have hmapid : ts.map pyReplaceSemi = ts :=
      map_id_of_mem ts _ (fun t ht =>
        pyReplaceSemi_of_no_semi (fun c hc hcs =>
          absurd (hcs ▸ hc) (h t ht).1))
    rw [hmapid]
    have hs1 : pyReplaceSemi (str "; ") = str ", " := by decide
    have hs2 : pyReplaceSemi (str ", ") = str ", " := by decide
    rw [hs1, hs2]
  · intro s a ha
    unfold parseAddresses at ha
    by_cases h : s = []
    · simp [h] at ha
    · rw [if_neg h] at ha
      have := (List.mem_filter.mp ha).2
      simpa using this

/-- C7 witness: the theorem applied to the two concrete addresses of the
spec's example; "a@x.com; b@y.com" and "a@x.com, b@y.com" parse to the
same two-element list. -/
theorem c7_witness :
    (∀ t ∈ [str "a@x.com", str "b@y.com"], ';' ∉ t ∧ ',' ∉ t) ∧
    parseAddresses (str "a@x.com; b@y.com") =
      parseAddresses (str "a@x.com, b@y.com") ∧
    parseAddresses (str "a@x.com, b@y.com") =
      [str "a@x.com", str "b@y.com"] := by
  have hsep : ∀ t ∈ [str "a@x.com", str "b@y.com"], ';' ∉ t ∧ ',' ∉ t := by
    decide
  have h := c7_separator_insensitive.1 [str "a@x.com", str "b@y.com"] hsep
  have hj1 : pyJoin (str "; ") [str "a@x.com", str "b@y.com"] =
      str "a@x.com; b@y.com" := by decide
  have hj2 : pyJoin (str ", ") [str "a@x.com", str "b@y.com"] =
      str "a@x.com, b@y.com" := by decide
  rw [hj1, hj2] at h
  exact ⟨hsep, h, by decide⟩

lemma splitOnComma_ne_nil (l : Str) : splitOnComma l ≠ [] := by
  cases l with
  | nil => simp [splitOnComma]
  | cons c cs =>
    unfold splitOnComma
    by_cases h : c = ','
    · simp [h]
    · rw [if_neg h]
      cases splitOnComma cs <;> simp

lemma splitOnComma_no_comma {l : Str} (h : ',' ∉ l) : splitOnComma l = [l] := by
  induction l with
  | nil => rfl
  | cons c cs ih =>
    have hc : ¬c = ',' := fun hh => h (by simp [hh])
    have hcs : ',' ∉ cs := fun hh => h (by simp [hh])
    unfold splitOnComma
    rw [if_neg hc, ih hcs]

lemma splitOnComma_cons (c : Char) (cs : Str) :
    splitOnComma (c :: cs) =
      if c = ',' then [] :: splitOnComma cs
      else
        match splitOnComma cs with
        | [] => [[c]]
        | p :: ps => (c :: p) :: ps := rfl

lemma splitOnComma_append {a : Str} (r : Str) (h : ',' ∉ a) :
    splitOnComma (a ++ ',' :: r) = a :: splitOnComma r := by
  induction a with
  | nil => simp [splitOnComma]
  | cons c cs ih =>
    have hc : ¬c = ',' := fun hh => h (by simp [hh])
    have hcs : ',' ∉ cs := fun hh => h (by simp [hh])
    rw [List.cons_append, splitOnComma_cons, if_neg hc, ih hcs]

lemma mem_pyJoin {c : Char} {sep : Str} :
    ∀ {ts : List Str}, c ∈ pyJoin sep ts → c ∈ sep ∨ ∃ t ∈ ts, c ∈ t := by
  intro ts
  induction ts with
  | nil => intro h; simp [pyJoin] at h
  | cons t rest ih =>
    intro h
    cases rest with
    | nil =>
      right
      exact ⟨t, by simp, h⟩
    | cons u rest' =>
      simp only [pyJoin, List.append_assoc, List.mem_append] at h
      rcases h with h | h | h
      · exact Or.inr ⟨t, by simp, h⟩
      · exact Or.inl h
      · rcases ih h with h' | ⟨t', ht', hc'⟩
        · exact Or.inl h'
        · exact Or.inr ⟨t', by simp [ht'], hc'⟩

lemma splitOnComma_pyJoin (a : Str) (ts : List Str) (ha : ',' ∉ a)
    (hts : ∀ t ∈ ts, ',' ∉ t) :
    splitOnComma (pyJoin (str ", ") (a :: ts)) =
      a :: ts.map (fun t => ' ' :: t) := by
  induction ts generalizing a with
  | nil => simp [pyJoin, splitOnComma_no_comma ha]
  | cons t rest ih =>
    have hjoin : pyJoin (str ", ") (a :: t :: rest) =
        a ++ ',' :: (' ' :: pyJoin (str ", ") (t :: rest)) := by
      simp [pyJoin, str]
    rw [hjoin, splitOnComma_append _ ha]
    have hsp : ' ' :: pyJoin (str ", ") (t :: rest) =
        pyJoin (str ", ") ((' ' :: t) :: rest) := by
      cases rest <;> simp [pyJoin]
    rw [hsp, ih (' ' :: t) (fun hh => by
      rcases List.mem_cons.mp hh with h' | h'
      · exact absurd h'.symm (by decide)
      · exact hts t (by simp) h') (fun u hu => hts u (by simp [hu]))]
    simp

lemma pyStrip_space_cons (t : Str) : pyStrip (' ' :: t) = pyStrip t := by
  simp [pyStrip, List.dropWhile]

/-- C9: round-trip of MIME formatting and parsing — for address lists whose
elements contain '@', contain neither separator, and carry no surrounding
whitespace, `_parse_addresses` inverts `_format_addrs_for_mime`. -/
theorem c9_format_parse_roundtrip (ts : List Str)
    (h : ∀ t ∈ ts, '@' ∈ t ∧ ',' ∉ t ∧ ';' ∉ t ∧ pyStrip t = t) :
    parseAddresses (formatAddrsForMime ts) = ts := by
  cases ts with
  | nil => rfl
  | cons a rest =>
    have hne : pyJoin (str ", ") (a :: rest) ≠ [] := by
      have ha : a ≠ [] := by
        intro hh
        have := (h a (by simp)).1
        rw [hh] at this
        simp at this
      cases rest with
      | nil => simpa [pyJoin]
      | cons u rest' => simp [pyJoin, ha]
    have hnos : ∀ c ∈ pyJoin (str ", ") (a :: rest), c ≠ ';' := by
      intro c hc hcs
      rcases mem_pyJoin hc with h' | ⟨t', ht', hc'⟩
      · rw [hcs] at h'
        exact absurd h' (by decide)
      · exact (h t' ht').2.2.1 (hcs ▸ hc')
    unfold formatAddrsForMime parseAddresses
    rw [if_neg hne, pyReplaceSemi_of_no_semi hnos]
    rw [splitOnComma_pyJoin a rest (h a (by simp)).2.1
      (fun t ht => (h t (by simp [ht])).2.1)]
    have hmap : (a :: rest.map (fun t => ' ' :: t)).map pyStrip = a :: rest := by
      simp only [List.map_cons, (h a (by simp)).2.2.2, List.map_map]
      congr 1
      rw [show pyStrip ∘ (fun t => ' ' :: t) = fun t : Str => pyStrip t from
        funext (fun t => pyStrip_space_cons t)]
      exact map_id_of_mem rest _ (fun t ht => (h t (by simp [ht])).2.2.2)
    rw [hmap]
    have hf1 : (a :: rest).filter (fun p => p ≠ []) = a :: rest := by
      rw [List.filter_eq_self]
      intro t ht
      have hat := (h t ht).1
      simp only [ne_eq, decide_eq_true_eq]
      intro hh
      rw [hh] at hat
      simp at hat
    rw [hf1]
    rw [List.filter_eq_self]
    intro t ht
    simpa using (h t ht).1

/-- C9 witness: the round-trip theorem applied to the concrete list
`["a@x.com", "b@y.com"]`. -/
theorem c9_witness :
    (∀ t ∈ [str "a@x.com", str "b@y.com"],
      '@' ∈ t ∧ ',' ∉ t ∧ ';' ∉ t ∧ pyStrip t = t) ∧
    parseAddresses (formatAddrsForMime [str "a@x.com", str "b@y.com"]) =
      [str "a@x.com", str "b@y.com"] := by
  have hh : ∀ t ∈ [str "a@x.com", str "b@y.com"],
      '@' ∈ t ∧ ',' ∉ t ∧ ';' ∉ t ∧ pyStrip t = t := by decide
  exact ⟨hh, c9_format_parse_roundtrip [str "a@x.com", str "b@y.com"] hh⟩

/-! ## Customer Aggregator: `_process_customer_data`
(src/main.py lines 431-461)

The column labels are cleaned with `str(col).strip().title()`; the chosen
customer column (an interactive selection) is a parameter.  A row is
skipped when `str(row.get(customer_col, '')).strip()` is falsy or equals
`'nan'` (for a string, `pd.isna` is always false and is dropped from the
model); otherwise the row's cells are copied verbatim with `NaN` coerced
to `""`, and the row is appended to its customer's list in a dict that
preserves first-seen key order. -/

/-- Python `str.title()` (ASCII model): an alphabetic character is
upper-cased after a non-alphabetic one and lower-cased after an
alphabetic one. -/
def pyTitleGo (prevAlpha : Bool) : Str → Str
  | [] => []
  | c :: cs =>
    (if c.isAlpha then (if prevAlpha then c.toLower else c.toUpper) else c)
      :: pyTitleGo c.isAlpha cs

/-- `str(col).strip().title()`. -/
def cleanCol (c : Str) : Str := pyTitleGo false (pyStrip c)

/-- A sheet as a DataFrame: column labels and aligned cell rows. -/
structure Table where
  columns : List Str
  rows : List (List Cell)

/-- A row dict: ordered association list of column name to cell. -/
abbrev DictRow := List (Str × Cell)

/-- `NaN` coercion of `_process_customer_data`: `if pd.isna(value):
value = ""`. -/
def coerceCell : Cell → Cell
  | none => some []
  | some s => some s

/-- First-match association lookup (the dict model; faithful to a Python
dict when the keys are distinct). -/
def alookup : List (Str × Cell) → Str → Option Cell
  | [], _ => none
  | p :: ps, k => if p.1 = k then some p.2 else alookup ps k

/-- `row.get(customer_col, '')` on the raw row. -/
def rowGetD (cols : List Str) (cells : List Cell) (col : Str) : Cell :=
  (alookup (cols.zip cells) col).getD (some [])

/-- `row_data`: every column's cell, `NaN` coerced to `""`. -/
def rowDict (cols : List Str) (cells : List Cell) : DictRow :=
  (cols.zip cells).map (fun p => (p.1, coerceCell p.2))

/-- `self.customer_data[customer_name].append(row_data)` on a
`defaultdict(list)`: insertion order of keys is preserved, rows append. -/
def addRow (acc : List (Str × List DictRow)) (k : Str) (r : DictRow) :
    List (Str × List DictRow) :=
  match acc with
  | [] => [(k, [r])]
  | (k', rs) :: rest =>
    if k' = k then (k', rs ++ [r]) :: rest else (k', rs) :: addRow rest k r

/-- `_process_customer_data` (the interactive column choice is the
parameter `col`). -/
def processCustomerData (t : Table) (col : Str) :
    List (Str × List DictRow) :=
  let cols := t.columns.map cleanCol
  t.rows.foldl
    (fun acc cells =>
      let name := pyStrip (pyStr (rowGetD cols cells col))
      if name = [] ∨ name = str "nan" then acc
      else addRow acc name (rowDict cols cells))
    []

lemma alookup_rowDict (cols : List Str) (cells : List Cell) (col : Str) :
    alookup (rowDict cols cells) col =
      (alookup (cols.zip cells) col).map coerceCell := by
  unfold rowDict
  induction cols.zip cells with
  | nil => rfl
  | cons p ps ih =>
    by_cases h : p.1 = col
    · simp [alookup, h]
    · simp [alookup, h, ih]

lemma addRow_preserve (Q : Str → DictRow → Prop)
    (acc : List (Str × List DictRow)) (k : Str) (r : DictRow)
    (hacc : ∀ p ∈ acc, p.1 ≠ [] ∧ p.1 ≠ str "nan" ∧ ∀ x ∈ p.2, Q p.1 x)
    (hk1 : k ≠ []) (hk2 : k ≠ str "nan") (hr : Q k r) :
    ∀ p ∈ addRow acc k r,
      p.1 ≠ [] ∧ p.1 ≠ str "nan" ∧ ∀ x ∈ p.2, Q p.1 x := by
  induction acc with
  | nil =>
    intro p hp
    simp [addRow] at hp
    subst hp
    exact ⟨hk1, hk2, fun x hx => by
      simp at hx
      subst hx
      exact hr⟩
  | cons q rest ih =>
    obtain ⟨k', rs⟩ := q
    intro p hp
    by_cases hkk : k' = k
    · simp only [addRow, if_pos hkk] at hp
      rcases List.mem_cons.mp hp with hph | hpt
      · subst hph
        have hhead := hacc (k', rs) (by simp)
        refine ⟨hhead.1, hhead.2.1, fun x hx => ?_⟩
        rcases List.mem_append.mp hx with hx' | hx'
        · exact hhead.2.2 x hx'
        · simp at hx'
          subst hx'
          exact hkk ▸ hr
      · exact hacc p (by simp [hpt])
    · simp only [addRow, if_neg hkk] at hp
      rcases List.mem_cons.mp hp with hph | hpt
      · subst hph
        exact hacc (k', rs) (by simp)
      · exact ih (fun q hq => hacc q (by simp [hq])) p hpt

/-- C8: every customer key stored by `_process_customer_data` is non-empty
and is not the textual `"nan"` sentinel, and every row stored under a key
has a customer-name cell (a real string, not a `NaN`) whose trim equals
that key — so no stored row has an empty, whitespace-only, or
textual-"nan" customer-name cell.  The cleaned column labels are assumed
distinct (the duplicate-label case, where a Python dict silently keeps one
entry, is the spec's acknowledged open question and outside this model). -/
theorem c8_customer_rows_invariant (t : Table) (col : Str)
    (_hnodup : (t.columns.map cleanCol).Nodup) :
    ∀ p ∈ processCustomerData t col,
      p.1 ≠ [] ∧ p.1 ≠ str "nan" ∧
      ∀ r ∈ p.2, ∃ s : Str, alookup r col = some (some s) ∧
        pyStrip s = p.1 := by
  unfold processCustomerData
  generalize t.columns.map cleanCol = cols
  have main : ∀ (rows : List (List Cell)) (acc : List (Str × List DictRow)),
      (∀ p ∈ acc, p.1 ≠ [] ∧ p.1 ≠ str "nan" ∧
        ∀ r ∈ p.2, ∃ s : Str, alookup r col = some (some s) ∧
          pyStrip s = p.1) →
      ∀ p ∈ rows.foldl
        (fun acc cells =>
          let name := pyStrip (pyStr (rowGetD cols cells col))
          if name = [] ∨ name = str "nan" then acc
          else addRow acc name (rowDict cols cells)) acc,
      p.1 ≠ [] ∧ p.1 ≠ str "nan" ∧
        ∀ r ∈ p.2, ∃ s : Str, alookup r col = some (some s) ∧
          pyStrip s = p.1 := by
    intro rows
    induction rows with
    | nil => intro acc hacc p hp; exact hacc p hp
    | cons cells rest ih =>
      intro acc hacc p hp
      simp only [List.foldl_cons] at hp
      by_cases hskip :
          pyStrip (pyStr (rowGetD cols cells col)) = [] ∨
          pyStrip (pyStr (rowGetD cols cells col)) = str "nan"
      · rw [if_pos hskip] at hp
        exact ih acc hacc p hp
      · rw [if_neg hskip] at hp
        push_neg at hskip
        refine ih _ (addRow_preserve
          (fun k x => ∃ s : Str, alookup x col = some (some s) ∧
            pyStrip s = k)
          acc _ (rowDict cols cells) hacc hskip.1 hskip.2 ?_) p hp
        cases hraw : alookup (cols.zip cells) col with
        | none =>
          exfalso
          apply hskip.1
          simp [rowGetD, hraw, pyStr, pyStrip, str]
        | some c =>
          cases c with
          | none =>
            exfalso
            apply hskip.2
            have : rowGetD cols cells col = none := by
              simp [rowGetD, hraw]
            rw [this]
            decide
          | some s =>
            refine ⟨s, ?_, ?_⟩
            · rw [alookup_rowDict, hraw]
              rfl
            · simp [rowGetD, hraw, pyStr]
  exact main t.rows [] (by simp)

/-- C8 witness: the theorem applied to a concrete table containing a
valid row, a whitespace-only name, a textual "nan" name and a `NaN` name;
only the valid rows survive, keyed by their trimmed names. -/
theorem c8_witness :
    ((Table.mk [str "Customer", str "Amount"]
        [[some (str " Acme "), some (str "10")],
         [some (str "   "), some (str "5")],
         [some (str "nan"), some (str "7")],
         [none, some (str "3")]]).columns.map cleanCol).Nodup ∧
    ∀ p ∈ processCustomerData
        (Table.mk [str "Customer", str "Amount"]
          [[some (str " Acme "), some (str "10")],
           [some (str "   "), some (str "5")],
           [some (str "nan"), some (str "7")],
           [none, some (str "3")]]) (str "Customer"),
      p.1 ≠ [] ∧ p.1 ≠ str "nan" ∧
      ∀ r ∈ p.2, ∃ s : Str, alookup r (str "Customer") = some (some s) ∧
        pyStrip s = p.1 :=
  ⟨by decide,
   c8_customer_rows_invariant
     (Table.mk [str "Customer", str "Amount"]
       [[some (str " Acme "), some (str "10")],
        [some (str "   "), some (str "5")],
        [some (str "nan"), some (str "7")],
        [none, some (str "3")]]) (str "Customer") (by decide)⟩

/-! ## Excel export: `_safe_sheet_name` (src/main.py lines 722-735)

`s = str(name).strip() or "Sheet"`, then each of the seven
Excel-invalid characters is replaced by a space, then `s = s[:31]`.
The `while s in existing` loop retries with suffixes `_1`, `_2`, …
truncating the base so the candidate fits in 31 characters; the Python
`while` is modelled with explicit fuel `len(existing) + 2`, which the
freshness theorem shows is enough for the loop to exit. -/

/-- Python `s[:k]` (a negative bound counts from the end). -/
def pySliceTo (k : Int) (s : Str) : Str :=
  if 0 ≤ k then s.take k.toNat else s.take (s.length - (-k).toNat)

/-- The characters `_safe_sheet_name` replaces. -/
def badChars : List Char := [':', '\\', '/', '?', '*', '[', ']']

/-- `s.replace(ch, ' ')` for a single character pattern. -/
def replaceChar (ch : Char) (s : Str) : Str :=
  s.map (fun x => if x = ch then ' ' else x)

/-- `str(name).strip() or "Sheet"`, the replacement loop, and `s[:31]`. -/
def sanitizeBase (name : Str) : Str :=
  let s0 := if pyStrip name = [] then str "Sheet" else pyStrip name
  let s1 := badChars.foldl (fun acc ch => replaceChar ch acc) s0
  pySliceTo 31 s1

/-- The candidate tried while `s in existing`:
`(base[:31 - len(suffix)] + suffix) if len(base) + len(suffix) > 31 else
base + suffix`, with `suffix = f"_{i}"`. -/
def candName (base : Str) (i : Nat) : Str :=
  let suffix := '_' :: natRepr i
  if 31 < base.length + suffix.length then
    pySliceTo ((31 : Int) - suffix.length) base ++ suffix
  else base ++ suffix

/-- The `while s in existing` loop with explicit fuel. -/
def loopName (base : Str) (existing : List Str) :
    Nat → Nat → Str → Option Str
  | 0, _, _ => none
  | fuel + 1, i, s =>
    if s ∈ existing then loopName base existing fuel (i + 1) (candName base i)
    else some s

/-- `_safe_sheet_name` (the caller's `existing.add(s)` is the set the next
call receives). -/
def safeSheetName (name : Str) (existing : List Str) : Option Str :=
  let base := sanitizeBase name
  loopName base existing (existing.length + 2) 1 base

lemma digitChar_toNat {d : Nat} (h : d < 10) :
    (Nat.digitChar d).toNat = 48 + d := by
  interval_cases d <;> rfl

lemma digitChar_isDigit {d : Nat} (h : d < 10) :
    (Nat.digitChar d).isDigit = true := by
  interval_cases d <;> rfl

lemma digitsVal_append_singleton (l : Str) (c : Char) :
    digitsVal (l ++ [c]) = 10 * digitsVal l + (c.toNat - 48) := by
  simp [digitsVal, List.foldl_append]

lemma digitsVal_reverse_map (ds : List ℕ) (h : ∀ d ∈ ds, d < 10) :
    digitsVal ((ds.map Nat.digitChar).reverse) = Nat.ofDigits 10 ds := by
  induction ds with
  | nil => rfl
  | cons d rest ih =>
    have hd : d < 10 := h d (by simp)
    simp only [List.map_cons, List.reverse_cons, digitsVal_append_singleton,
      ih (fun x hx => h x (by simp [hx])), digitChar_toNat hd,
      Nat.ofDigits_cons]
    omega

lemma digitsVal_natRepr (n : Nat) : digitsVal (natRepr n) = n := by
  by_cases hn : n = 0
  · subst hn; rfl
  · unfold natRepr
    rw [if_neg hn,
      digitsVal_reverse_map _ (fun d hd => Nat.digits_lt_base (by norm_num) hd),
      Nat.ofDigits_digits]

lemma natRepr_inj {m n : Nat} (h : natRepr m = natRepr n) : m = n := by
  have := digitsVal_natRepr m
  rw [h, digitsVal_natRepr] at this
  exact this.symm

lemma natRepr_isDigit {n : Nat} : ∀ c ∈ natRepr n, c.isDigit = true := by
  intro c hc
  unfold natRepr at hc
  by_cases hn : n = 0
  · rw [if_pos hn] at hc
    simp at hc
    subst hc
    rfl
  · rw [if_neg hn] at hc
    rw [List.mem_reverse, List.mem_map] at hc
    obtain ⟨d, hd, hdc⟩ := hc
    exact hdc ▸ digitChar_isDigit (Nat.digits_lt_base (by norm_num) hd)

lemma natRepr_length_le {n : Nat} (hn : n ≠ 0) (h : n < 10 ^ 29) :
    (natRepr n).length ≤ 29 := by
  unfold natRepr
  rw [if_neg hn, List.length_reverse, List.length_map,
    Nat.digits_len 10 n (by norm_num) hn]
  have := (Nat.lt_pow_iff_log_lt (by norm_num : 1 < 10) hn).mp h
  omega

lemma natRepr_length_pos (n : Nat) : 1 ≤ (natRepr n).length := by
  unfold natRepr
  by_cases hn : n = 0
  · simp [hn]
  · rw [if_neg hn, List.length_reverse, List.length_map]
    have hne : Nat.digits 10 n ≠ [] := Nat.digits_ne_nil_iff_ne_zero.mpr hn
    cases hh : Nat.digits 10 n with
    | nil => exact absurd hh hne
    | cons a l => simp

lemma candName_trunc {base : Str} {i : Nat}
    (hle : (natRepr i).length + 1 ≤ 30)
    (h : 31 < base.length + ((natRepr i).length + 1)) :
    candName base i =
      base.take (31 - ((natRepr i).length + 1)) ++ '_' :: natRepr i := by
  unfold candName
  rw [if_pos (by simpa using h)]
  unfold pySliceTo
  have h0 : (0 : Int) ≤ 31 - (('_' :: natRepr i).length : Int) := by
    simp only [List.length_cons]
    omega
  rw [if_pos h0]
  have ht : ((31 : Int) - (('_' :: natRepr i).length : Int)).toNat =
      31 - ((natRepr i).length + 1) := by
    simp only [List.length_cons]
    omega
  rw [ht]

lemma candName_untrunc {base : Str} {i : Nat}
    (h : base.length + ((natRepr i).length + 1) ≤ 31) :
    candName base i = base ++ '_' :: natRepr i := by
  unfold candName
  rw [if_neg (by simpa using Nat.not_lt.mpr h)]

lemma candName_length_trunc {base : Str} {i : Nat}
    (hle : (natRepr i).length + 1 ≤ 30)
    (h : 31 < base.length + ((natRepr i).length + 1)) :
    (candName base i).length = 31 := by
  rw [candName_trunc hle h]
  simp only [List.length_append, List.length_take, List.length_cons]
  omega

lemma candName_length_le {base : Str} {i : Nat}
    (hle : (natRepr i).length + 1 ≤ 30) :
    (candName base i).length ≤ 31 := by
  by_cases h : 31 < base.length + ((natRepr i).length + 1)
  · exact (candName_length_trunc hle h).le
  · rw [candName_untrunc (Nat.not_lt.mp h)]
    simp only [List.length_append, List.length_cons]
    omega

lemma candName_ne_nil (base : Str) (i : Nat) : candName base i ≠ [] := by
  unfold candName
  by_cases h : 31 < base.length + ('_' :: natRepr i).length
  · rw [if_pos h]
    simp
  · rw [if_neg h]
    simp

lemma isDigit_not_bad {c : Char} (hd : c.isDigit = true) : c ∉ badChars := by
  intro hbad
  simp only [badChars, List.mem_cons, List.not_mem_nil, or_false] at hbad
  rcases hbad with h | h | h | h | h | h | h <;> subst h <;> simp at hd

lemma candName_chars {base : Str} {i : Nat}
    (hbase : ∀ c ∈ base, c ∉ badChars) :
    ∀ c ∈ candName base i, c ∉ badChars := by
  intro c hc
  unfold candName at hc
  have hsuf : ∀ x ∈ '_' :: natRepr i, x ∉ badChars := by
    intro x hx
    rcases List.mem_cons.mp hx with h | h
    · subst h; decide
    · exact isDigit_not_bad (natRepr_isDigit x h)
  by_cases h : 31 < base.length + ('_' :: natRepr i).length
  · rw [if_pos h] at hc
    rcases List.mem_append.mp hc with h' | h'
    · unfold pySliceTo at h'
      by_cases h0 : (0 : Int) ≤ 31 - (('_' :: natRepr i).length : Int)
      · rw [if_pos h0] at h'
        exact hbase c (List.take_subset _ _ h')
      · rw [if_neg h0] at h'
        exact hbase c (List.take_subset _ _ h')
    · exact hsuf c h'
  · rw [if_neg h] at hc
    rcases List.mem_append.mp hc with h' | h'
    · exact hbase c h'
    · exact hsuf c h'

lemma underscore_digit_clash {P Q ri rj : Str}
    (hP : P.length = 31 - (ri.length + 1))
    (hQ : Q.length = 31 - (rj.length + 1))
    (hlt : ri.length < rj.length)
    (hrj : ∀ c ∈ rj, c.isDigit = true)
    (hlile : ri.length + 1 ≤ 30)
    (hljle : rj.length + 1 ≤ 30)
    (h : P ++ '_' :: ri = Q ++ '_' :: rj) : False := by
  set idx := 31 - (ri.length + 1) with hidx
  have h1 : (P ++ '_' :: ri)[idx]? = some '_' := by
    rw [List.getElem?_append_right (by omega)]
    have : idx - P.length = 0 := by omega
    rw [this]
    simp
  have hQlt : Q.length ≤ idx := by omega
  have h2 : (Q ++ '_' :: rj)[idx]? = ('_' :: rj)[idx - Q.length]? := by
    rw [List.getElem?_append_right hQlt]
  have hk : idx - Q.length = rj.length - ri.length := by omega
  have hkpos : 1 ≤ rj.length - ri.length := by omega
  have h3 : ('_' :: rj)[rj.length - ri.length]? =
      rj[rj.length - ri.length - 1]? := by
    cases hc : rj.length - ri.length with
    | zero => omega
    | succ m => simp
  have hmlt : rj.length - ri.length - 1 < rj.length := by omega
  have h4 : rj[rj.length - ri.length - 1]? =
      some rj[rj.length - ri.length - 1] := List.getElem?_eq_getElem hmlt
  have hdig : rj[rj.length - ri.length - 1].isDigit = true :=
    hrj _ (List.getElem_mem hmlt)
  rw [h] at h1
  rw [h2, hk, h3, h4] at h1
  have heq : rj[rj.length - ri.length - 1] = '_' := by
    injection h1 with hv
  rw [heq] at hdig
  simp at hdig

lemma candName_ne_of_len_lt {base : Str} {i j : Nat}
    (hlt : (natRepr i).length < (natRepr j).length)
    (hlile : (natRepr i).length + 1 ≤ 30)
    (hljle : (natRepr j).length + 1 ≤ 30) :
    candName base i ≠ candName base j := by
  intro h
  set n := base.length
  set li := (natRepr i).length + 1 with hli
  set lj := (natRepr j).length + 1 with hlj
  by_cases hti : 31 < n + li <;> by_cases htj : 31 < n + lj
  · -- both truncated
    rw [candName_trunc hlile hti, candName_trunc hljle htj] at h
    refine underscore_digit_clash ?_ ?_ hlt (fun c hc => natRepr_isDigit c hc)
      hlile hljle h
    · simp only [List.length_take]
      omega
    · simp only [List.length_take]
      omega
  · -- i truncated, j not: 31 < n + li and n + lj ≤ 31 forces lj < li,
    -- impossible with li < lj
    omega
  · -- i untruncated (n + li ≤ 31), j truncated; lengths force n + li = 31
    have hlen := congrArg List.length h
    rw [candName_untrunc (by omega), candName_length_trunc hljle htj] at hlen
    simp only [List.length_append, List.length_cons] at hlen
    rw [candName_untrunc (by omega), candName_trunc hljle htj] at h
    refine underscore_digit_clash ?_ ?_ hlt (fun c hc => natRepr_isDigit c hc)
      hlile hljle h
    · omega
    · simp only [List.length_take]
      omega
  · -- both untruncated: lengths differ
    have hlen := congrArg List.length h
    rw [candName_untrunc (by omega), candName_untrunc (by omega)] at hlen
    simp only [List.length_append, List.length_cons] at hlen
    omega

lemma candName_inj {base : Str} {i j : Nat}
    (hlile : (natRepr i).length + 1 ≤ 30)
    (hljle : (natRepr j).length + 1 ≤ 30)
    (h : candName base i = candName base j) : i = j := by
  rcases Nat.lt_trichotomy (natRepr i).length (natRepr j).length with
    hlt | heq | hgt
  · exact absurd h (candName_ne_of_len_lt hlt hlile hljle)
  · by_cases htr : 31 < base.length + ((natRepr i).length + 1)
    · rw [candName_trunc hlile htr, candName_trunc hljle (by omega)] at h
      have := (List.append_inj h (by
        simp only [List.length_take]
        omega)).2
      have hr : natRepr i = natRepr j := by injection this
      exact natRepr_inj hr
    · rw [candName_untrunc (by omega), candName_untrunc (by omega)] at h
      have := List.append_cancel_left h
      have hr : natRepr i = natRepr j := by injection this
      exact natRepr_inj hr
  · exact absurd h.symm (candName_ne_of_len_lt hgt hljle hlile)

lemma foldl_replaceChar_length (chs : List Char) :
    ∀ s : Str, (chs.foldl (fun acc ch => replaceChar ch acc) s).length =
      s.length := by
  induction chs with
  | nil => intro s; rfl
  | cons ch rest ih =>
    intro s
    simp only [List.foldl_cons]
    rw [ih (replaceChar ch s)]
    simp [replaceChar]

lemma mem_replaceChar {c ch : Char} {s : Str} (h : c ∈ replaceChar ch s) :
    c ∈ s ∨ c = ' ' := by
  unfold replaceChar at h
  obtain ⟨x, hx, hxc⟩ := List.mem_map.mp h
  by_cases hxch : x = ch
  · rw [if_pos hxch] at hxc
    exact Or.inr hxc.symm
  · rw [if_neg hxch] at hxc
    exact Or.inl (hxc ▸ hx)

lemma not_mem_replaceChar_self {ch : Char} (hch : ch ≠ ' ') (s : Str) :
    ch ∉ replaceChar ch s := by
  intro h
  unfold replaceChar at h
  obtain ⟨x, _, hxc⟩ := List.mem_map.mp h
  by_cases hxch : x = ch
  · rw [if_pos hxch] at hxc
    exact hch hxc.symm
  · rw [if_neg hxch] at hxc
    exact hxch hxc

lemma mem_foldl_replaceChar (chs : List Char) :
    ∀ (s : Str) (c : Char),
      c ∈ chs.foldl (fun acc ch => replaceChar ch acc) s →
      c ∈ s ∨ c = ' ' := by
  induction chs with
  | nil => intro s c h; exact Or.inl h
  | cons ch rest ih =>
    intro s c h
    simp only [List.foldl_cons] at h
    rcases ih (replaceChar ch s) c h with h' | h'
    · exact mem_replaceChar h'
    · exact Or.inr h'

lemma foldl_replaceChar_no_mem (chs : List Char) (hsp : ' ' ∉ chs) :
    ∀ (s : Str) (c : Char),
      c ∈ chs.foldl (fun acc ch => replaceChar ch acc) s → c ∉ chs := by
  induction chs with
  | nil => intro s c _ hc; simp at hc
  | cons ch rest ih =>
    intro s c h hc
    simp only [List.foldl_cons] at h
    have hchsp : ch ≠ ' ' := fun hh => hsp (by simp [hh])
    have hrestsp : ' ' ∉ rest := fun hh => hsp (by simp [hh])
    rcases List.mem_cons.mp hc with hcc | hcc
    · subst hcc
      rcases mem_foldl_replaceChar rest _ c h with h' | h'
      · exact not_mem_replaceChar_self hchsp s h'
      · exact hchsp h'
    · exact ih hrestsp (replaceChar ch s) c h hcc

lemma sanitizeBase_ne_nil (name : Str) : sanitizeBase name ≠ [] := by
  unfold sanitizeBase pySliceTo
  rw [if_pos (by norm_num)]
  intro h
  rcases List.take_eq_nil_iff.mp h with h' | h'
  · simp at h'
  · have hlen := foldl_replaceChar_length badChars
      (if pyStrip name = [] then str "Sheet" else pyStrip name)
    rw [h'] at hlen
    by_cases hs : pyStrip name = []
    · rw [if_pos hs] at hlen
      simp [str] at hlen
    · rw [if_neg hs] at hlen
      exact hs (List.eq_nil_of_length_eq_zero hlen.symm)

lemma sanitizeBase_length_le (name : Str) : (sanitizeBase name).length ≤ 31 := by
  unfold sanitizeBase pySliceTo
  rw [if_pos (by norm_num)]
  simp [List.length_take]

lemma sanitizeBase_chars (name : Str) :
    ∀ c ∈ sanitizeBase name, c ∉ badChars := by
  intro c hc
  unfold sanitizeBase pySliceTo at hc
  rw [if_pos (by norm_num)] at hc
  exact foldl_replaceChar_no_mem badChars (by decide) _ c
    (List.take_subset _ _ hc)

lemma exists_fresh_cand (base : Str) (ex : List Str)
    (hbound : ex.length + 2 < 10 ^ 29) :
    ∃ k, 1 ≤ k ∧ k ≤ ex.length + 1 ∧ candName base k ∉ ex := by
  by_contra hall
  push_neg at hall
  have hinj : Set.InjOn (candName base) (Finset.Icc 1 (ex.length + 1)) := by
    intro a ha b hb hab
    simp only [Finset.coe_Icc, Set.mem_Icc] at ha hb
    have ha29 : a < 10 ^ 29 := by omega
    have hb29 : b < 10 ^ 29 := by omega
    exact candName_inj
      (by have := natRepr_length_le (by omega : a ≠ 0) ha29; omega)
      (by have := natRepr_length_le (by omega : b ≠ 0) hb29; omega) hab
  have hsub : (Finset.Icc 1 (ex.length + 1)).image (candName base) ⊆
      ex.toFinset := by
    intro x hx
    obtain ⟨k, hk, hkx⟩ := Finset.mem_image.mp hx
    rw [Finset.mem_Icc] at hk
    exact List.mem_toFinset.mpr (hkx ▸ hall k hk.1 hk.2)
  have hcard : ((Finset.Icc 1 (ex.length + 1)).image (candName base)).card =
      ex.length + 1 := by
    rw [Finset.card_image_of_injOn hinj, Nat.card_Icc]
    omega
  have hle := Finset.card_le_card hsub
  have hfle : ex.toFinset.card ≤ ex.length := ex.toFinset_card_le
  omega

lemma loopName_succ (base : Str) (ex : List Str) (fuel i : Nat) (s : Str) :
    loopName base ex (fuel + 1) i s =
      if s ∈ ex then loopName base ex fuel (i + 1) (candName base i)
      else some s := rfl

lemma loopName_sound (base : Str) (ex : List Str) :
    ∀ (fuel i : Nat) (s r : Str), loopName base ex fuel i s = some r →
      r ∉ ex ∧ (r = s ∨ ∃ k, i ≤ k ∧ k < i + fuel ∧ r = candName base k) := by
  intro fuel
  induction fuel with
  | zero => intro i s r h; simp [loopName] at h
  | succ m ih =>
    intro i s r h
    rw [loopName_succ] at h
    by_cases hs : s ∈ ex
    · rw [if_pos hs] at h
      obtain ⟨hne, hor⟩ := ih (i + 1) (candName base i) r h
      refine ⟨hne, Or.inr ?_⟩
      rcases hor with he | ⟨k, hk1, hk2, hk3⟩
      · exact ⟨i, le_refl i, by omega, he⟩
      · exact ⟨k, by omega, by omega, hk3⟩
    · rw [if_neg hs] at h
      have hrs : s = r := by injection h
      exact ⟨hrs ▸ hs, Or.inl hrs.symm⟩

lemma loopName_succeeds (base : Str) (ex : List Str) :
    ∀ (m i : Nat) (s : Str),
      (s ∉ ex ∨ ∃ k, i ≤ k ∧ k < i + m ∧ candName base k ∉ ex) →
      ∃ r, loopName base ex (m + 1) i s = some r := by
  intro m
  induction m with
  | zero =>
    intro i s h
    rcases h with h | ⟨k, hk1, hk2, _⟩
    · exact ⟨s, by rw [loopName_succ, if_neg h]⟩
    · omega
  | succ m ih =>
    intro i s h
    by_cases hs : s ∈ ex
    · rcases h with h | ⟨k, hk1, hk2, hk3⟩
      · exact absurd hs h
      · have hnext : candName base i ∉ ex ∨
            ∃ k', i + 1 ≤ k' ∧ k' < i + 1 + m ∧ candName base k' ∉ ex := by
          by_cases hk : k = i
          · exact Or.inl (hk ▸ hk3)
          · exact Or.inr ⟨k, by omega, by omega, hk3⟩
        obtain ⟨r, hr⟩ := ih (i + 1) (candName base i) hnext
        exact ⟨r, by rw [loopName_succ, if_pos hs]; exact hr⟩
    · exact ⟨s, by rw [loopName_succ, if_neg hs]⟩

/-- C10: for every proposed sheet name and every already-used name list
(of any realistic size — the bound keeps the numeric suffixes under 30
characters), `_safe_sheet_name` terminates within `len(existing) + 2`
probes and returns a non-empty name of at most 31 characters containing
none of `: \ / ? * [ ]` and not already in the used list; since the
caller adds each returned name to the list before the next call, the
worksheet names of one export are pairwise distinct. -/
theorem c10_safe_sheet_name (name : Str) (existing : List Str)
    (hbound : existing.length + 2 < 10 ^ 29) :
    ∃ s : Str, safeSheetName name existing = some s ∧ s ≠ [] ∧
      s.length ≤ 31 ∧ (∀ c ∈ s, c ∉ badChars) ∧ s ∉ existing := by
  obtain ⟨k, hk1, hk2, hk3⟩ :=
    exists_fresh_cand (sanitizeBase name) existing hbound
  obtain ⟨r, hr⟩ := loopName_succeeds (sanitizeBase name) existing
    (existing.length + 1) 1 (sanitizeBase name)
    (Or.inr ⟨k, hk1, by omega, hk3⟩)
  have hr' : safeSheetName name existing = some r := hr
  obtain ⟨hnotmem, hor⟩ := loopName_sound (sanitizeBase name) existing
    (existing.length + 2) 1 (sanitizeBase name) r hr
  refine ⟨r, hr', ?_, ?_, ?_, hnotmem⟩
  · rcases hor with he | ⟨kk, hkk1, hkk2, hkk3⟩
    · exact he ▸ sanitizeBase_ne_nil name
    · exact hkk3 ▸ candName_ne_nil (sanitizeBase name) kk
  · rcases hor with he | ⟨kk, hkk1, hkk2, hkk3⟩
    · exact he ▸ sanitizeBase_length_le name
    · have h29 : kk < 10 ^ 29 := by omega
      have := natRepr_length_le (by omega : kk ≠ 0) h29
      exact hkk3 ▸ candName_length_le (by omega)
  · rcases hor with he | ⟨kk, hkk1, hkk2, hkk3⟩
    · exact he ▸ sanitizeBase_chars name
    · exact hkk3 ▸ candName_chars (sanitizeBase_chars name)

/-- C10 witness: the theorem applied to the proposed name "Data" with an
empty used set; the concrete run returns "Data" itself. -/
theorem c10_witness :
    ([] : List Str).length + 2 < 10 ^ 29 ∧
    safeSheetName (str "Data") [] = some (str "Data") ∧
    (∃ s : Str, safeSheetName (str "Data") [] = some s ∧ s ≠ [] ∧
      s.length ≤ 31 ∧ (∀ c ∈ s, c ∉ badChars) ∧ s ∉ ([] : List Str)) :=
  ⟨by norm_num, by decide, c10_safe_sheet_name (str "Data") [] (by norm_num)⟩
